import Mathlib

/-!
Verification development for the 秒输 (miaoshu) push-to-talk dictation tool
(`src/voice_input.py`).  Text is embedded as `List Char` (Python `str` is a
sequence of code points).  Each definition mirrors one Python function of the
source; theorems at the end settle the specification claims.
-/

namespace Miaoshu

/-- The whitespace characters stripped by Python's `str.strip()` (the ASCII
ones; the source text only ever involves these). -/
def isPySpace (c : Char) : Bool :=
  c = ' ' || c = '\t' || c = '\n' || c = '\x0d' || c = '\x0b' || c = '\x0c'

/-- Embedding of Python `str.strip()`: drop whitespace from both ends. -/
def pyStrip (s : List Char) : List Char :=
  List.rdropWhile isPySpace (List.dropWhile isPySpace s)

/-- Helper for Python `str.replace` with an empty pattern:
`"abc".replace("", "X") = "XaXbXcX"`, i.e. the replacement is interleaved at
every gap.  `emptyInterleave new s` is everything after the leading copy of
`new`. -/
def emptyInterleave (new : List Char) : List Char → List Char
  | [] => []
  | c :: rest => c :: (new ++ emptyInterleave new rest)

/-- Worker for Python `str.replace(old, new)` with nonempty pattern
`o :: os`.  With counter `0` it scans for the leftmost occurrence; after a
match it emits `new` and skips the remaining `os.length` matched characters
(counter `k + 1` skips one character), so occurrences are non-overlapping and
the scan resumes after each inserted replacement. -/
def replaceGo (o : Char) (os new : List Char) : Nat → List Char → List Char
  | 0, [] => []
  | 0, c :: rest =>
    if (o :: os).isPrefixOf (c :: rest) then
      new ++ replaceGo o os new os.length rest
    else
      c :: replaceGo o os new 0 rest
  | _ + 1, [] => []
  | k + 1, _ :: rest => replaceGo o os new k rest

/-- Embedding of Python `str.replace(old, new)` (all occurrences, including
the empty-pattern corner case `"ab".replace("", "X") = "XaXbX"`). -/
def pyReplace (old new s : List Char) : List Char :=
  match old with
  | [] => new ++ emptyInterleave new s
  | o :: os => replaceGo o os new 0 s

/-- The character class of the first regex in
`TextProcessor._optimize_punctuation` (source line 219).  The apparent
quote characters in that source line are ASCII: the pattern literal parses
as two implicitly concatenated strings whose delimiters are the two
apostrophes, leaving the ASCII double quote (twice) in the class, which is
`，。！？、；：""（）【】`. -/
def punctRun : List Char :=
  ['，', '。', '！', '？', '、', '；', '：', Char.ofNat 34, '（', '）', '【', '】']

/-- The character class of the two space-removal regexes in
`TextProcessor._optimize_punctuation` (`[，。！？、；：]`). -/
def punctSpace : List Char :=
  ['，', '。', '！', '？', '、', '；', '：']

/-- Worker for the first `re.sub` of `_optimize_punctuation`.  In skip mode
(`true`) it deletes the remaining U+0001 characters of a matched run; in
scan mode (`false`) it looks for a `punctRun` character immediately
followed by U+0001. -/
def collapseGo : Bool → List Char → List Char
  | _, [] => []
  | skip, d :: rest =>
    if skip && d == '\x01' then collapseGo skip rest
    else
      match rest with
      | [] => [d]
      | e :: _ =>
        if punctRun.contains d && e == '\x01' then d :: collapseGo true rest
        else d :: collapseGo false rest

/-- Embedding of the first `re.sub` of `TextProcessor._optimize_punctuation`
(source line 219).  The pattern literal is two implicitly concatenated
string fragments and the second fragment is NON-raw, so its `\1` is the
octal escape for the control character U+0001: the compiled pattern is the
`punctRun` class followed by `\x01+` — not a back-reference.  The
substitution therefore deletes runs of U+0001 immediately following a
class character, and is a no-op on any text containing no U+0001; in
particular it does not collapse repeated punctuation (claim C8). -/
def collapse_runs (s : List Char) : List Char :=
  collapseGo false s

/-- Embedding of `re.sub(r'([，。！？、；：]) ', r'\1', text)`: remove a single
space immediately after a `punctSpace` character (leftmost, non-overlapping;
the scan resumes after the match). -/
def remove_space_after : List Char → List Char
  | [] => []
  | [c] => [c]
  | c :: d :: rest =>
    if d = ' ' && punctSpace.contains c then c :: remove_space_after rest
    else c :: remove_space_after (d :: rest)

/-- Embedding of `re.sub(r' ([，。！？、；：])', r'\1', text)`: remove a single
space immediately before a `punctSpace` character. -/
def remove_space_before : List Char → List Char
  | [] => []
  | [c] => [c]
  | c :: d :: rest =>
    if c = ' ' && punctSpace.contains d then d :: remove_space_before rest
    else c :: remove_space_before (d :: rest)

/-- Embedding of `TextProcessor._optimize_punctuation`: the three `re.sub`
passes in source order (the first of which, `collapse_runs`, only deletes
U+0001 runs after punctuation — see its docstring). -/
def optimize_punctuation (text : List Char) : List Char :=
  remove_space_before (remove_space_after (collapse_runs text))

/-- `true` iff the text contains two adjacent identical `punctRun`
characters, i.e. a run of 2+ identical punctuation marks. -/
def hasPunctRun : List Char → Bool
  | c :: d :: rest => (c == d && punctRun.contains c) || hasPunctRun (d :: rest)
  | _ => false

/-- `true` iff the text contains a `punctSpace` character immediately
followed by a space. -/
def hasSpaceAfterPunct : List Char → Bool
  | c :: d :: rest => (d = ' ' && punctSpace.contains c) || hasSpaceAfterPunct (d :: rest)
  | _ => false

/-- `true` iff the text contains a space immediately followed by a
`punctSpace` character. -/
def hasSpaceBeforePunct : List Char → Bool
  | c :: d :: rest => (c = ' ' && punctSpace.contains d) || hasSpaceBeforePunct (d :: rest)
  | _ => false

/-- One entry of the `text_rules` configuration list: a regex pattern and a
replacement (`rule.get('pattern', '')` / `rule.get('replace', '')`). -/
structure TextRule where
  pattern : List Char
  replace : List Char

/-- Abstract interface of Python's `re` module as used by
`TextProcessor._apply_text_rules`.  `isErr pat rep` says whether
`re.sub(pat, rep, ·)` raises `re.error` (compile or template errors depend
only on the pattern and the replacement, never on the subject text);
`sub pat rep t` is the substitution result when no error is raised. -/
structure ReEngine where
  isErr : List Char → List Char → Bool
  sub : List Char → List Char → List Char → List Char

/-- The snapshot of the configuration read by `TextProcessor`. -/
structure TPConfig where
  hotwords : List (List Char × List Char)
  punctuation_map : List (List Char × List Char)
  text_rules : List TextRule
  auto_punctuation : Bool

/-- The hotword list sorted by descending pattern length, ties kept in map
(insertion) order — the embedding of
`sorted(self.hotwords.items(), key=lambda x: len(x[0]), reverse=True)`
(Python's sort is stable; `insertionSort` with this relation is the stable
descending-by-length sort, see `sorted_hotwords_pairwise` and
`sorted_hotwords_filter`). -/
def sorted_hotwords (hw : List (List Char × List Char)) :
    List (List Char × List Char) :=
  List.insertionSort (fun p q => q.1.length ≤ p.1.length) hw

/-- Embedding of `TextProcessor._apply_hotwords`. -/
def apply_hotwords (hw : List (List Char × List Char)) (text : List Char) :
    List Char :=
  if hw = [] then text
  else (sorted_hotwords hw).foldl (fun t p => pyReplace p.1 p.2 t) text

/-- Embedding of `TextProcessor._apply_punctuation_map`. -/
def apply_punctuation_map (pm : List (List Char × List Char))
    (text : List Char) : List Char :=
  if pm = [] then text
  else pm.foldl (fun t p => pyReplace p.1 p.2 t) text

/-- Embedding of `TextProcessor._apply_text_rules`: each rule is applied in
list order; a rule with an empty pattern is skipped by the `if pattern:`
guard, and a rule on which `re.sub` raises `re.error` is skipped by the
`except re.error` handler (logged, not fatal). -/
def apply_text_rules (re : ReEngine) (rules : List TextRule)
    (text : List Char) : List Char :=
  rules.foldl
    (fun t r =>
      if r.pattern = [] then t
      else if re.isErr r.pattern r.replace then t
      else re.sub r.pattern r.replace t)
    text

/-- Embedding of `TextProcessor.process`: empty text is returned at once;
otherwise hotwords, punctuation map, custom rules, optional punctuation
optimization, and a final `strip()`. -/
def process (re : ReEngine) (cfg : TPConfig) (text : List Char) : List Char :=
  if text = [] then text
  else
    let t1 := apply_hotwords cfg.hotwords text
    let t2 := apply_punctuation_map cfg.punctuation_map t1
    let t3 := apply_text_rules re cfg.text_rules t2
    let t4 := if cfg.auto_punctuation then optimize_punctuation t3 else t3
    pyStrip t4

/-- The five pipeline steps in the order the spec states them (§4.4):
hotword substitution, then punctuation map, then custom rules in list
order, then punctuation normalization iff `auto_punctuation`, then the
final trim — applied unconditionally to every input (no empty-input
guard).  It is built from the same faithful per-step embeddings as
`process`: this definition captures the spec's ORDERING claim (C6); what
each individual step does against the spec's wording is settled separately
by claims C5, C8 and C9. -/
def processSpec (re : ReEngine) (cfg : TPConfig) (text : List Char) :
    List Char :=
  let t1 := apply_hotwords cfg.hotwords text
  let t2 := apply_punctuation_map cfg.punctuation_map t1
  let t3 := apply_text_rules re cfg.text_rules t2
  let t4 := if cfg.auto_punctuation then optimize_punctuation t3 else t3
  pyStrip t4

/-- A trivial concrete regex engine (no rule in the configurations used with
it ever reaches `sub`). -/
def reNone : ReEngine where
  isErr := fun _ _ => false
  sub := fun _ _ t => t

/-- The configuration with empty hotword/punctuation maps, no custom rules,
and `auto_punctuation` enabled — the default configuration of the source. -/
def cfgDefault : TPConfig where
  hotwords := []
  punctuation_map := []
  text_rules := []
  auto_punctuation := true

example : pyReplace "北京市".toList "Beijing City".toList "北京市朝阳区".toList
    = "Beijing City朝阳区".toList := by decide
example : pyReplace "".toList "X".toList "ab".toList = "XaXbX".toList := by decide
example : pyReplace "ab".toList "b".toList "aab".toList = "ab".toList := by decide
example : process reNone cfgDefault "你好。。。世界".toList
    = "你好。。。世界".toList := by decide
example : collapse_runs ['。', '\x01', '\x01', 'a'] = ['。', 'a'] := by decide
example : collapse_runs ['a', '\x01', 'b'] = ['a', '\x01', 'b'] := by decide
example : process reNone cfgDefault "a。  b".toList = "a。 b".toList := by decide

/-!
## The combo-hotkey listener and the recording session

`main()` in combo mode (`needs_both`, e.g. `ctrl_alt`) keeps two booleans
`key1_pressed` / `key2_pressed` and calls `app.start_recording()` /
`app.stop_recording()`.  The keys of the first combo role are `keys[:2]`
(e.g. `ctrl`, `ctrl_l`), those of the second `keys[2:]` (e.g. `alt`,
`alt_l`).  `starts` and `stops` are ghost counters of the session starts and
stops that actually happen. -/

/-- The physical keys distinguished by the combo listener: the two variants
of each combo role, and any other key. -/
inductive Key where
  | ctrl | ctrl_l | alt | alt_l | other
deriving DecidableEq

/-- A raw OS key transition, as delivered by the keyboard listener. -/
inductive KeyEvent where
  | press (k : Key)
  | release (k : Key)

/-- `key in keys[:2]` — the first combo role. -/
def inKeys12 : Key → Bool
  | .ctrl => true
  | .ctrl_l => true
  | _ => false

/-- `key in keys[2:]` — the second combo role. -/
def inKeys34 : Key → Bool
  | .alt => true
  | .alt_l => true
  | _ => false

/-- Listener-visible state: the two key flags, `app.is_recording`, and the
ghost counters of session starts and stops. -/
structure ListenerState where
  key1_pressed : Bool
  key2_pressed : Bool
  is_recording : Bool
  starts : Nat
  stops : Nat
deriving DecidableEq

/-- Embedding of `秒输Input.start_recording`, counter part: it returns
immediately when `is_recording` is already true, otherwise begins a session
(ghost counter `starts` is incremented). -/
def start_recording (s : ListenerState) : ListenerState :=
  if s.is_recording then s
  else { s with is_recording := true, starts := s.starts + 1 }

/-- Embedding of `秒输Input.stop_recording`, counter part: it returns
immediately when `is_recording` is false, otherwise ends the session (ghost
counter `stops` is incremented). -/
def stop_recording (s : ListenerState) : ListenerState :=
  if s.is_recording then { s with is_recording := false, stops := s.stops + 1 }
  else s

/-- Flag update done by `on_press` before the start check: set the flag of
the pressed key's combo role. -/
def pressFlag (k : Key) (s : ListenerState) : ListenerState :=
  if inKeys12 k then { s with key1_pressed := true }
  else if inKeys34 k then { s with key2_pressed := true }
  else s

/-- Flag update done by `on_release`: clear the flag of the released key's
combo role. -/
def releaseFlag (k : Key) (s : ListenerState) : ListenerState :=
  if inKeys12 k then { s with key1_pressed := false }
  else if inKeys34 k then { s with key2_pressed := false }
  else s

/-- Embedding of the combo-mode `on_press` handler: update the flag of the
pressed key's role, then start a session if both flags hold and no session
is recording (the check runs on every press, key-repeat included). -/
def on_press (k : Key) (s : ListenerState) : ListenerState :=
  if (pressFlag k s).key1_pressed && (pressFlag k s).key2_pressed
      && !(pressFlag k s).is_recording then
    start_recording (pressFlag k s)
  else pressFlag k s

/-- Embedding of the combo-mode `on_release` handler: releasing either combo
key clears that role's flag and stops the session if one is recording;
other keys are ignored. -/
def on_release (k : Key) (s : ListenerState) : ListenerState :=
  if inKeys12 k || inKeys34 k then
    if (releaseFlag k s).is_recording then stop_recording (releaseFlag k s)
    else releaseFlag k s
  else s

/-- One raw key event. -/
def stepEvent (s : ListenerState) : KeyEvent → ListenerState
  | .press k => on_press k s
  | .release k => on_release k s

/-- State of the listener before any key event: no key down, no session. -/
def initState : ListenerState :=
  ⟨false, false, false, 0, 0⟩

/-- The listener run on a whole raw key-event sequence. -/
def runEvents (evts : List KeyEvent) : ListenerState :=
  evts.foldl stepEvent initState

/-!
## The full stop path of `秒输Input`

For claims about the audio buffer, the recognizer and delivery we embed
`stop_recording` (source lines 372–417) and `paste_text` (419–429) with
their collaborators as parameters.  Audio chunks are lists of (integer-
indexed) samples; Python field mutation plus exception propagation is
embedded as a pair of the final state and an `Except` result. -/

/-- The mutable fields of `秒输Input` that the stop path touches. -/
structure InputState where
  is_recording : Bool
  audio_data : List (List Int)
deriving DecidableEq

/-- The exceptions that can escape the stop path: `CalledProcessError` from
`subprocess.run(..., check=True)` in `paste_text`, or an error raised by the
external recognizer. -/
inductive PyError where
  | calledProcessError
  | recognitionError (msg : List Char)
deriving DecidableEq

/-- Observable outcome of a `stop_recording` call that returned normally:
whether the no-audio branch was taken (the `"没有录到音频"` log — the
`NoAudioCaptured` signal), whether the recognizer was invoked, whether the
text was pasted, and the processed text (`none` when the call returned
before producing any). -/
structure StopOutcome where
  noAudio : Bool
  recognizerInvoked : Bool
  pasted : Bool
  finalText : Option (List Char)
deriving DecidableEq

/-- Embedding of `秒输Input.paste_text`: `pbcopy` then the `osascript`
paste keystroke, each via `subprocess.run(..., check=True)`, which raises
`CalledProcessError` on failure.  `copyOk` / `pasteOk` tell whether the two
collaborator commands succeed on the given text. -/
def paste_text (copyOk pasteOk : List Char → Bool) (text : List Char) :
    Except PyError Unit :=
  if copyOk text then
    if pasteOk text then Except.ok () else Except.error PyError.calledProcessError
  else Except.error PyError.calledProcessError

/-- Embedding of `秒输Input.stop_recording` (source lines 372–417):
early return when not recording; otherwise clear `is_recording`, and if no
audio chunk was appended log no-audio and return; otherwise concatenate the
chunks, run the recognizer (`recognizeText`, an `Except`-valued collaborator
whose errors are not caught), post-process, and paste nonempty text (whose
`CalledProcessError` is not caught either).  The first component is the
state after the call whether it returns or raises; the second is the normal
outcome or the escaping exception. -/
def stop_recording_full (re : ReEngine) (cfg : TPConfig)
    (recognizeText : List Int → Except (List Char) (List Char))
    (copyOk pasteOk : List Char → Bool) (s : InputState) :
    InputState × Except PyError StopOutcome :=
  if s.is_recording = false then
    (s, Except.ok ⟨false, false, false, none⟩)
  else
    let s1 : InputState := { s with is_recording := false }
    if s.audio_data = [] then
      (s1, Except.ok ⟨true, false, false, none⟩)
    else
      let audio := s.audio_data.flatten
      match recognizeText audio with
      | Except.error m => (s1, Except.error (PyError.recognitionError m))
      | Except.ok t =>
        let raw_text := pyStrip t
        let text := process re cfg raw_text
        if text = [] then
          (s1, Except.ok ⟨false, true, false, some text⟩)
        else
          match paste_text copyOk pasteOk text with
          | Except.ok _ => (s1, Except.ok ⟨false, true, true, some text⟩)
          | Except.error e => (s1, Except.error e)

/-- Embedding of `秒输Input.start_recording` on those fields: no-op when
already recording, otherwise set the flag and clear the chunk list. -/
def start_recording_full (s : InputState) : InputState :=
  if s.is_recording then s
  else { is_recording := true, audio_data := [] }

/-- `containsSub pat s` is true iff `pat` occurs as a contiguous substring
of `s` (Python's `in` / the reachability of a `str.replace` occurrence). -/
def containsSub (pat : List Char) : List Char → Bool
  | [] => pat.isEmpty
  | c :: rest => pat.isPrefixOf (c :: rest) || containsSub pat rest

/-- True iff some hotword or punctuation-map key occurs inside some hotword
or punctuation-map replacement value of the configuration. -/
def keyInValue (cfg : TPConfig) : Bool :=
  (cfg.hotwords ++ cfg.punctuation_map).any fun kv =>
    (cfg.hotwords ++ cfg.punctuation_map).any fun kv2 => containsSub kv.1 kv2.2

/-!
## Session invariant (claims C1, C2)
-/

/-- The counting invariant of the listener: the ghost start counter exceeds
the stop counter exactly when a session is recording. -/
def sessionInv (s : ListenerState) : Prop :=
  s.starts = s.stops + (if s.is_recording then 1 else 0)

lemma sessionInv_pressFlag (k : Key) (s : ListenerState) :
    sessionInv (pressFlag k s) ↔ sessionInv s := by
  unfold pressFlag
  split_ifs <;> exact Iff.rfl

lemma sessionInv_releaseFlag (k : Key) (s : ListenerState) :
    sessionInv (releaseFlag k s) ↔ sessionInv s := by
  unfold releaseFlag
  split_ifs <;> exact Iff.rfl

lemma sessionInv_start (s : ListenerState) (h : sessionInv s) :
    sessionInv (start_recording s) := by
  unfold sessionInv start_recording at *
  split_ifs at * <;> simp_all

lemma sessionInv_stop (s : ListenerState) (h : sessionInv s) :
    sessionInv (stop_recording s) := by
  unfold sessionInv stop_recording at *
  split_ifs at * <;> simp_all

lemma sessionInv_step (s : ListenerState) (e : KeyEvent) (h : sessionInv s) :
    sessionInv (stepEvent s e) := by
  cases e with
  | press k =>
    have h1 : sessionInv (pressFlag k s) := (sessionInv_pressFlag k s).mpr h
    dsimp only [stepEvent, on_press]
    split_ifs
    · exact sessionInv_start _ h1
    · exact h1
  | release k =>
    have h1 : sessionInv (releaseFlag k s) := (sessionInv_releaseFlag k s).mpr h
    dsimp only [stepEvent, on_release]
    split_ifs
    · exact sessionInv_stop _ h1
    · exact h1
    · exact h

lemma sessionInv_foldl :
    ∀ (l : List KeyEvent) (s : ListenerState),
      sessionInv s → sessionInv (l.foldl stepEvent s)
  | [], _, h => h
  | e :: l, s, h => sessionInv_foldl l _ (sessionInv_step s e h)

lemma sessionInv_run (evts : List KeyEvent) : sessionInv (runEvents evts) :=
  sessionInv_foldl evts initState rfl

/-- Releases never increase the start counter and, when no session is
recording, leave the stop counter and the recording flag unchanged. -/
lemma on_release_idle (k : Key) (t : ListenerState)
    (h : t.is_recording = false) :
    (on_release k t).stops = t.stops ∧ (on_release k t).is_recording = false := by
  cases k <;>
    simp [on_release, releaseFlag, stop_recording, inKeys12, inKeys34, h]

/-- C1.  At most one session is active at any time: `start_recording` is a
no-op while `is_recording` is true, and for every sequence of raw key
events the number of session starts never exceeds the number of session
stops by more than one (so no two starts happen without an intervening
stop). -/
theorem combo_hotkey_single_active_session (evts : List KeyEvent) :
    (runEvents evts).starts ≤ (runEvents evts).stops + 1
    ∧ ((runEvents evts).is_recording = true →
        start_recording (runEvents evts) = runEvents evts) := by
  have hinv := sessionInv_run evts
  unfold sessionInv at hinv
  constructor
  · split at hinv <;> omega
  · intro hrec
    simp [start_recording, hrec]

/-- Witness for C1 on the concrete event sequence `press ctrl, press alt`
(which leaves a session recording). -/
theorem combo_hotkey_single_active_session_witness :
    (runEvents [KeyEvent.press Key.ctrl, KeyEvent.press Key.alt]).starts
      ≤ (runEvents [KeyEvent.press Key.ctrl, KeyEvent.press Key.alt]).stops + 1
    ∧ start_recording (runEvents [KeyEvent.press Key.ctrl, KeyEvent.press Key.alt])
      = runEvents [KeyEvent.press Key.ctrl, KeyEvent.press Key.alt] :=
  ⟨(combo_hotkey_single_active_session _).1,
   (combo_hotkey_single_active_session _).2 (by decide)⟩

/-- C2.  While a session is recording, releasing either combo key stops it
exactly once: the stop counter goes up by one and recording ends; a
subsequent release of the other key (or any further release while not
recording) adds no further stop, because `stop_recording` is a no-op when
`is_recording` is false. -/
theorem combo_release_stops_exactly_once (s : ListenerState) (k k' : Key)
    (hrec : s.is_recording = true)
    (hk : inKeys12 k = true ∨ inKeys34 k = true) :
    ((on_release k s).stops = s.stops + 1
      ∧ (on_release k s).is_recording = false)
    ∧ (on_release k' (on_release k s)).stops = s.stops + 1
    ∧ (∀ t : ListenerState, t.is_recording = false →
        (on_release k' t).stops = t.stops ∧ stop_recording t = t) := by
  have hone : (on_release k s).stops = s.stops + 1
      ∧ (on_release k s).is_recording = false := by
    rcases hk with hk | hk <;> cases k <;>
      simp_all [on_release, releaseFlag, stop_recording, inKeys12, inKeys34, hrec]
  refine ⟨hone, ?_, ?_⟩
  · have h2 := on_release_idle k' (on_release k s) hone.2
    rw [h2.1, hone.1]
  · intro t ht
    exact ⟨(on_release_idle k' t ht).1, by simp [stop_recording, ht]⟩

/-- Witness for C2: both combo keys held and recording, release `ctrl` then
`alt`. -/
theorem combo_release_stops_exactly_once_witness :
    ((on_release Key.ctrl ⟨true, true, true, 1, 0⟩).stops = 0 + 1
      ∧ (on_release Key.ctrl ⟨true, true, true, 1, 0⟩).is_recording = false)
    ∧ (on_release Key.alt (on_release Key.ctrl ⟨true, true, true, 1, 0⟩)).stops = 0 + 1
    ∧ (∀ t : ListenerState, t.is_recording = false →
        (on_release Key.alt t).stops = t.stops ∧ stop_recording t = t) :=
  combo_release_stops_exactly_once ⟨true, true, true, 1, 0⟩ Key.ctrl Key.alt
    (by decide) (Or.inl (by decide))

/-- C3.  Stopping a recording session with zero appended audio chunks
returns normally (no exception) with the no-audio signal, the recognizer is
not invoked, no delivery is attempted, no text is produced, and the
controller is back to idle. -/
theorem stop_with_no_audio_quiet (re : ReEngine) (cfg : TPConfig)
    (recognizeText : List Int → Except (List Char) (List Char))
    (copyOk pasteOk : List Char → Bool) (s : InputState)
    (hrec : s.is_recording = true) (hempty : s.audio_data = []) :
    stop_recording_full re cfg recognizeText copyOk pasteOk s
      = (⟨false, []⟩, Except.ok ⟨true, false, false, none⟩) := by
  obtain ⟨r, a⟩ := s
  cases hrec
  cases hempty
  rfl

/-- Witness for C3 at a concrete recording state with no chunks. -/
theorem stop_with_no_audio_quiet_witness :
    stop_recording_full reNone cfgDefault (fun _ => Except.ok [])
        (fun _ => true) (fun _ => true) ⟨true, []⟩
      = (⟨false, []⟩, Except.ok ⟨true, false, false, none⟩) :=
  stop_with_no_audio_quiet reNone cfgDefault (fun _ => Except.ok [])
    (fun _ => true) (fun _ => true) ⟨true, []⟩ rfl rfl

/-- Counterexample to C4 as stated: with one audio chunk, a successful
recognition of `"hi"`, and a failing `pbcopy` delivery command, the
`CalledProcessError` raised by `subprocess.run(..., check=True)` escapes
`paste_text` and `stop_recording` uncaught — a delivery failure does
propagate an exception across the session-controller boundary. -/
theorem delivery_failure_escapes :
    (stop_recording_full reNone cfgDefault (fun _ => Except.ok ['h', 'i'])
        (fun _ => false) (fun _ => true) ⟨true, [[0]]⟩).2
      = Except.error PyError.calledProcessError := by
  rfl

/-- C4 (amended).  A recognition or delivery failure escapes the stop path
as an uncaught exception, but the controller has already left the recording
state: after any `stop_recording` call — normal return or exception —
`is_recording` is false, so no failure can leave the state machine stuck in
a session. -/
theorem stop_path_always_idle (re : ReEngine) (cfg : TPConfig)
    (recognizeText : List Int → Except (List Char) (List Char))
    (copyOk pasteOk : List Char → Bool) (s : InputState)
    (hrec : s.is_recording = true) :
    (stop_recording_full re cfg recognizeText copyOk pasteOk s).1.is_recording
      = false := by
  unfold stop_recording_full
  rw [hrec]
  simp only [Bool.true_eq_false, if_false]
  repeat' split
  all_goals rfl

/-- Witness for C4's amended theorem at the counterexample's input. -/
theorem stop_path_always_idle_witness :
    (stop_recording_full reNone cfgDefault (fun _ => Except.ok ['h', 'i'])
        (fun _ => false) (fun _ => true) ⟨true, [[0]]⟩).1.is_recording
      = false :=
  stop_path_always_idle reNone cfgDefault (fun _ => Except.ok ['h', 'i'])
    (fun _ => false) (fun _ => true) ⟨true, [[0]]⟩ rfl

/-!
## Hotword ordering (claim C5)
-/

lemma filter_orderedInsert (n : Nat) (a : List Char × List Char)
    (l : List (List Char × List Char)) :
    (List.orderedInsert (fun p q => q.1.length ≤ p.1.length) a l).filter
        (fun q => q.1.length == n)
      = if a.1.length = n
        then a :: l.filter (fun q => q.1.length == n)
        else l.filter (fun q => q.1.length == n) := by
  induction l with
  | nil =>
    by_cases h : a.1.length = n <;>
      simp [List.orderedInsert, List.filter_cons, h]
  | cons b t ih =>
    by_cases hr : b.1.length ≤ a.1.length
    · rw [List.orderedInsert, if_pos hr]
      by_cases h : a.1.length = n <;> simp [List.filter_cons, h]
    · rw [List.orderedInsert, if_neg hr]
      by_cases ha : a.1.length = n
      · have hb : (b.1.length == n) = false := by
          have hlt : a.1.length < b.1.length := Nat.lt_of_not_le hr
          simp only [beq_eq_false_iff_ne, ne_eq]
          omega
        simp [List.filter_cons, ih, ha, hb]
      · simp [List.filter_cons, ih, ha]

lemma sorted_hotwords_filter (hw : List (List Char × List Char)) (n : Nat) :
    (sorted_hotwords hw).filter (fun q => q.1.length == n)
      = hw.filter (fun q => q.1.length == n) := by
  induction hw with
  | nil => rfl
  | cons a t ih =>
    unfold sorted_hotwords at ih ⊢
    rw [List.insertionSort, filter_orderedInsert]
    by_cases h : a.1.length = n <;> simp [List.filter_cons, h, ih]

lemma sorted_hotwords_pairwise (hw : List (List Char × List Char)) :
    (sorted_hotwords hw).Pairwise (fun p q => q.1.length ≤ p.1.length) := by
  haveI : IsTotal (List Char × List Char) (fun p q => q.1.length ≤ p.1.length) :=
    ⟨fun a b => Nat.le_total b.1.length a.1.length⟩
  haveI : IsTrans (List Char × List Char) (fun p q => q.1.length ≤ p.1.length) :=
    ⟨fun _ _ _ hab hbc => Nat.le_trans hbc hab⟩
  exact List.sorted_insertionSort _ hw

/-- C5.  Hotword substitution replaces occurrences of each key by its value
processing the keys in descending key length, ties kept in map-insertion
order: `_apply_hotwords` folds `str.replace` over `sorted_hotwords`, which
is sorted by descending key length (`Pairwise`) and is length-stable (the
keys of any fixed length appear in their original map order).  On the
hotword map `{"北京": "Beijing", "北京市": "Beijing City"}` and input
`"北京市朝阳区"` it produces `"Beijing City朝阳区"`, which contains
`"Beijing City"` and not `"Beijing市"`. -/
theorem hotword_longest_match_first (hw : List (List Char × List Char))
    (text : List Char) (n : Nat) :
    apply_hotwords hw text
      = (sorted_hotwords hw).foldl (fun t p => pyReplace p.1 p.2 t) text
    ∧ (sorted_hotwords hw).Pairwise (fun p q => q.1.length ≤ p.1.length)
    ∧ (sorted_hotwords hw).filter (fun q => q.1.length == n)
        = hw.filter (fun q => q.1.length == n)
    ∧ apply_hotwords
        [("北京".toList, "Beijing".toList), ("北京市".toList, "Beijing City".toList)]
        "北京市朝阳区".toList = "Beijing City朝阳区".toList
    ∧ containsSub "Beijing City".toList
        (apply_hotwords
          [("北京".toList, "Beijing".toList), ("北京市".toList, "Beijing City".toList)]
          "北京市朝阳区".toList) = true
    ∧ containsSub "Beijing市".toList
        (apply_hotwords
          [("北京".toList, "Beijing".toList), ("北京市".toList, "Beijing City".toList)]
          "北京市朝阳区".toList) = false := by
  refine ⟨?_, sorted_hotwords_pairwise hw, sorted_hotwords_filter hw n,
    by decide, by decide, by decide⟩
  unfold apply_hotwords
  split_ifs with h
  · subst h
    rfl
  · rfl

/-!
## Custom text rules (claim C9)
-/

/-- C9.  Custom rules are regex substitutions applied in list order; a rule
whose pattern raises `re.error` (or is empty, hence skipped by the
`if pattern:` guard) is skipped without aborting: the result equals folding
the substitution over just the well-formed rules, for every regex engine.
The second conjunct shows it concretely: with an engine on which pattern
`"["` is malformed, the malformed rule is skipped and the following rule is
still applied. -/
theorem text_rules_skip_malformed (re : ReEngine) (rules : List TextRule)
    (text : List Char) :
    apply_text_rules re rules text
      = (rules.filter fun r =>
          !(r.pattern == []) && !re.isErr r.pattern r.replace).foldl
          (fun t r => re.sub r.pattern r.replace t) text
    ∧ apply_text_rules ⟨fun pat _ => pat == ['['], fun _ rep t => t ++ rep⟩
        [⟨['['], ['z']⟩, ⟨['a'], ['b']⟩] ['t'] = ['t', 'b'] := by
  constructor
  · induction rules generalizing text with
    | nil => rfl
    | cons r rs ih =>
      simp only [apply_text_rules, List.foldl_cons] at ih ⊢
      by_cases h1 : r.pattern = []
      · rw [if_pos h1, List.filter_cons]
        have hc : (!(r.pattern == []) && !re.isErr r.pattern r.replace) = false := by
          simp [h1]
        rw [hc]
        simpa using ih text
      · rw [if_neg h1]
        by_cases h2 : re.isErr r.pattern r.replace
        · rw [if_pos h2, List.filter_cons]
          have hc : (!(r.pattern == []) && !re.isErr r.pattern r.replace) = false := by
            simp [h2]
          rw [hc]
          simpa using ih text
        · rw [if_neg h2, List.filter_cons]
          have hc : (!(r.pattern == []) && !re.isErr r.pattern r.replace) = true := by
            simp [h1, h2]
          rw [hc]
          simpa [List.foldl_cons] using ih (re.sub r.pattern r.replace text)
  · rfl

/-!
## Punctuation normalization (claim C8)
-/

lemma collapseGo_false_cons₂ (d e : Char) (r : List Char) :
    collapseGo false (d :: e :: r)
      = if punctRun.contains d && e == '\x01' then d :: collapseGo true (e :: r)
        else d :: collapseGo false (e :: r) :=
  rfl

lemma collapseGo_false_id :
    ∀ (s : List Char), '\x01' ∉ s → collapseGo false s = s
  | [], _ => rfl
  | [_], _ => rfl
  | d :: e :: r, h => by
    have he : (e == '\x01') = false := by
      refine beq_eq_false_iff_ne.mpr fun heq => h ?_
      rw [heq]
      exact List.mem_cons_of_mem d (List.mem_cons_self _ _)
    have h2 : '\x01' ∉ e :: r := fun hm => h (List.mem_cons_of_mem d hm)
    have hcond : (punctRun.contains d && (e == '\x01')) = false := by
      rw [he, Bool.and_false]
    rw [collapseGo_false_cons₂, hcond, if_neg Bool.false_ne_true]
    exact congrArg (d :: ·) (collapseGo_false_id (e :: r) h2)

/-- The first `re.sub` of `_optimize_punctuation` is the identity on any
text containing no U+0001 character. -/
lemma collapse_runs_id (s : List Char) (h : '\x01' ∉ s) :
    collapse_runs s = s :=
  collapseGo_false_id s h

lemma remove_space_after_pair (p : Char) (s : List Char)
    (hp : punctSpace.contains p = true) :
    remove_space_after (p :: ' ' :: s) = p :: remove_space_after s := by
  have hpm : p ∈ punctSpace := by simpa using hp
  simp [remove_space_after, hpm]

lemma remove_space_before_pair (p : Char) (s : List Char)
    (hp : punctSpace.contains p = true) :
    remove_space_before (' ' :: p :: s) = p :: remove_space_before s := by
  have hpm : p ∈ punctSpace := by simpa using hp
  simp [remove_space_before, hpm]

/-- C8, settled as a code bug.  The source's run-collapsing regex is dead:
the second fragment of the pattern literal at line 219 is a non-raw string,
so its backslash-1 is the octal escape for U+0001 and the compiled pattern
is the punctuation class followed by `\x01+`, not a back-reference.  Hence
`collapse_runs` is the identity on every U+0001-free text (first conjunct),
what it actually deletes is a U+0001 run after a class character (second
conjunct), and the spec's example `"你好。。。世界"` comes out of
normalization and of `process` UNCHANGED (last two conjuncts) instead of
the claimed `"你好。世界"`.  The space-removal part of the claim does hold
(middle conjuncts). -/
theorem punctuation_collapse_dead (p : Char) (s t : List Char)
    (h : '\x01' ∉ s) (hp : punctSpace.contains p = true) :
    collapse_runs s = s
    ∧ collapse_runs ['。', '\x01', '\x01', 'a'] = ['。', 'a']
    ∧ remove_space_after (p :: ' ' :: t) = p :: remove_space_after t
    ∧ remove_space_before (' ' :: p :: t) = p :: remove_space_before t
    ∧ optimize_punctuation "你好。。。世界".toList = "你好。。。世界".toList
    ∧ process reNone cfgDefault "你好。。。世界".toList
        = "你好。。。世界".toList :=
  ⟨collapse_runs_id s h, by decide, remove_space_after_pair p t hp,
   remove_space_before_pair p t hp, by decide, by decide⟩

/-- Witness for C8's theorem at the failing input itself. -/
theorem punctuation_collapse_dead_witness :
    collapse_runs "你好。。。世界".toList = "你好。。。世界".toList
    ∧ collapse_runs ['。', '\x01', '\x01', 'a'] = ['。', 'a']
    ∧ remove_space_after ['，', ' ', 'x'] = '，' :: remove_space_after ['x']
    ∧ remove_space_before [' ', '，', 'x'] = '，' :: remove_space_before ['x']
    ∧ optimize_punctuation "你好。。。世界".toList = "你好。。。世界".toList
    ∧ process reNone cfgDefault "你好。。。世界".toList
        = "你好。。。世界".toList :=
  punctuation_collapse_dead '，' "你好。。。世界".toList ['x']
    (by decide) (by decide)

/-!
## The fixed pipeline order (claim C6)
-/

/-- Counterexample to C6 as stated: on the empty input with a configuration
whose hotword map contains the (empty-keyed) pair `"" ↦ "X"`, `process`
returns `""` immediately while applying the five pipeline steps
(`processSpec`) would return `"X"` — so it is not the case that for every
input and configuration the five steps are applied. -/
theorem process_pipeline_differs_on_empty :
    process reNone ⟨[([], ['X'])], [], [], true⟩ []
      ≠ processSpec reNone ⟨[([], ['X'])], [], [], true⟩ [] := by
  decide

/-- C6 (amended).  For every nonempty input text, every configuration and
every regex engine, `process` applies exactly the spec's fixed order of
steps — hotword substitution, punctuation map, custom rules in list order,
normalization iff `auto_punctuation`, final trim (`processSpec`, built from
the same faithful per-step embeddings, so this is purely the ordering
claim; each step's own behavior is claims C5, C8, C9); the empty input is
returned immediately without applying any step. -/
theorem process_fixed_pipeline_nonempty (re : ReEngine) (cfg : TPConfig)
    (text : List Char) (h : text ≠ []) :
    process re cfg text = processSpec re cfg text := by
  unfold process processSpec
  rw [if_neg h]

/-- Witness for C6's amended theorem on a concrete nonempty input. -/
theorem process_fixed_pipeline_nonempty_witness :
    process reNone cfgDefault ['a'] = processSpec reNone cfgDefault ['a'] :=
  process_fixed_pipeline_nonempty reNone cfgDefault ['a'] (by decide)

/-!
## Idempotence (claim C7)
-/

lemma replaceGo_of_not_contains (o : Char) (os new : List Char) :
    ∀ s : List Char, containsSub (o :: os) s = false →
      replaceGo o os new 0 s = s
  | [], _ => rfl
  | c :: rest, h => by
    simp only [containsSub] at h
    obtain ⟨h1, h2⟩ := Bool.or_eq_false_iff.mp h
    simp only [replaceGo, h1, Bool.false_eq_true, if_false]
    exact congrArg (c :: ·) (replaceGo_of_not_contains o os new rest h2)

lemma pyReplace_of_not_contains (old new s : List Char)
    (h : containsSub old s = false) : pyReplace old new s = s := by
  cases old with
  | nil =>
    exfalso
    cases s <;> simp [containsSub, List.isPrefixOf] at h
  | cons o os => exact replaceGo_of_not_contains o os new s h

lemma foldl_pyReplace_id (l : List (List Char × List Char)) (y : List Char)
    (h : ∀ pr ∈ l, containsSub pr.1 y = false) :
    l.foldl (fun t p => pyReplace p.1 p.2 t) y = y := by
  induction l with
  | nil => rfl
  | cons a t ih =>
    rw [List.foldl_cons, pyReplace_of_not_contains a.1 a.2 y (h a (by simp))]
    exact ih fun pr hpr => h pr (by simp [hpr])

lemma apply_hotwords_id (hw : List (List Char × List Char)) (y : List Char)
    (h : ∀ pr ∈ hw, containsSub pr.1 y = false) :
    apply_hotwords hw y = y := by
  unfold apply_hotwords
  split_ifs
  · rfl
  · exact foldl_pyReplace_id _ y fun pr hpr =>
      h pr ((List.perm_insertionSort _ hw).mem_iff.mp hpr)

lemma apply_punctuation_map_id (pm : List (List Char × List Char))
    (y : List Char) (h : ∀ pr ∈ pm, containsSub pr.1 y = false) :
    apply_punctuation_map pm y = y := by
  unfold apply_punctuation_map
  split_ifs
  · rfl
  · exact foldl_pyReplace_id pm y h

lemma remove_space_after_id (y : List Char)
    (h : hasSpaceAfterPunct y = false) :
    remove_space_after y = y := by
  induction y with
  | nil => rfl
  | cons c rest ih =>
    cases rest with
    | nil => rfl
    | cons d t =>
      have hor := Bool.or_eq_false_iff.mp
        (by simpa only [hasSpaceAfterPunct] using h)
      simp only [remove_space_after, hor.1, Bool.false_eq_true, if_false,
        List.cons.injEq, true_and]
      exact ih hor.2

lemma remove_space_before_id (y : List Char)
    (h : hasSpaceBeforePunct y = false) :
    remove_space_before y = y := by
  induction y with
  | nil => rfl
  | cons c rest ih =>
    cases rest with
    | nil => rfl
    | cons d t =>
      have hor := Bool.or_eq_false_iff.mp
        (by simpa only [hasSpaceBeforePunct] using h)
      simp only [remove_space_before, hor.1, Bool.false_eq_true, if_false,
        List.cons.injEq, true_and]
      exact ih hor.2

lemma dropWhile_head_false (p : Char → Bool) :
    ∀ (s : List Char) (c : Char) (l : List Char),
      List.dropWhile p s = c :: l → p c = false
  | [], _, _, h => by simp at h
  | a :: s', c, l, h => by
    rw [List.dropWhile_cons] at h
    by_cases hpa : p a = true
    · rw [if_pos hpa] at h
      exact dropWhile_head_false p s' c l h
    · rw [if_neg hpa] at h
      injection h with h1 _
      subst h1
      simpa using hpa

lemma pyStrip_idem (s : List Char) : pyStrip (pyStrip s) = pyStrip s := by
  unfold pyStrip
  have hy : List.dropWhile isPySpace
      (List.rdropWhile isPySpace (List.dropWhile isPySpace s))
      = List.rdropWhile isPySpace (List.dropWhile isPySpace s) := by
    obtain ⟨u, hu⟩ :=
      List.rdropWhile_prefix isPySpace (List.dropWhile isPySpace s)
    cases hyc : List.rdropWhile isPySpace (List.dropWhile isPySpace s) with
    | nil => rfl
    | cons c t =>
      rw [hyc, List.cons_append] at hu
      have hpc : isPySpace c = false :=
        dropWhile_head_false isPySpace s c (t ++ u) hu.symm
      rw [List.dropWhile_cons, hpc]
      simp
  rw [hy, List.rdropWhile_idempotent]

lemma process_fixed_point (re : ReEngine) (cfg : TPConfig) (y : List Char)
    (hrules : cfg.text_rules = [])
    (hhw : ∀ pr ∈ cfg.hotwords, containsSub pr.1 y = false)
    (hpm : ∀ pr ∈ cfg.punctuation_map, containsSub pr.1 y = false)
    (hchr : '\x01' ∉ y)
    (hsa : hasSpaceAfterPunct y = false)
    (hsb : hasSpaceBeforePunct y = false)
    (hstrip : pyStrip y = y) :
    process re cfg y = y := by
  by_cases hy : y = []
  · rw [hy]
    rfl
  · unfold process
    rw [if_neg hy]
    show pyStrip (if cfg.auto_punctuation then
        optimize_punctuation (apply_text_rules re cfg.text_rules
          (apply_punctuation_map cfg.punctuation_map
            (apply_hotwords cfg.hotwords y)))
      else apply_text_rules re cfg.text_rules
        (apply_punctuation_map cfg.punctuation_map
          (apply_hotwords cfg.hotwords y))) = y
    rw [apply_hotwords_id _ _ hhw, apply_punctuation_map_id _ _ hpm, hrules]
    have hat : apply_text_rules re [] y = y := rfl
    rw [hat]
    by_cases hap : cfg.auto_punctuation
    · rw [if_pos hap]
      unfold optimize_punctuation
      rw [collapse_runs_id y hchr, remove_space_after_id y hsa,
        remove_space_before_id y hsb, hstrip]
    · rw [if_neg hap, hstrip]

/-- Counterexample to C7 as stated: the input `"a。  b"` contains no run of
2+ identical punctuation marks, and the default configuration has no
hotword or punctuation-map key occurring in any replacement value, yet
`process` is not idempotent on it — the first pass removes only one of the
two spaces after `。` (the space-removal regex consumes a single space per
match), so the second pass removes another. -/
theorem process_not_idempotent_under_claimed_conditions :
    hasPunctRun "a。  b".toList = false
    ∧ keyInValue cfgDefault = false
    ∧ process reNone cfgDefault (process reNone cfgDefault "a。  b".toList)
        ≠ process reNone cfgDefault "a。  b".toList := by
  decide

/-- C7 (amended).  The post-processor is idempotent on inputs whose first
pass yields fully normalized text: when there are no custom rules and
`process x` contains no hotword key, no punctuation-map key, no run of 2+
identical punctuation marks, no space adjacent to a space-sensitive
punctuation mark, and no U+0001 control character (the dead collapse
pattern of line 219 still deletes U+0001 runs after a punctuation mark, so
a U+0001 surviving the first pass would defeat idempotence — see the
example below), then `process (process x) = process x`. -/
theorem process_idempotent_on_normalized (re : ReEngine) (cfg : TPConfig)
    (x : List Char)
    (hrules : cfg.text_rules = [])
    (hhw : ∀ pr ∈ cfg.hotwords, containsSub pr.1 (process re cfg x) = false)
    (hpm : ∀ pr ∈ cfg.punctuation_map,
      containsSub pr.1 (process re cfg x) = false)
    (hrun : hasPunctRun (process re cfg x) = false)
    (hchr : '\x01' ∉ process re cfg x)
    (hsa : hasSpaceAfterPunct (process re cfg x) = false)
    (hsb : hasSpaceBeforePunct (process re cfg x) = false) :
    process re cfg (process re cfg x) = process re cfg x := by
  apply process_fixed_point re cfg _ hrules hhw hpm hchr hsa hsb
  by_cases hx : x = []
  · rw [hx]
    rfl
  · have hform : process re cfg x = pyStrip (if cfg.auto_punctuation then
        optimize_punctuation (apply_text_rules re cfg.text_rules
          (apply_punctuation_map cfg.punctuation_map
            (apply_hotwords cfg.hotwords x)))
      else apply_text_rules re cfg.text_rules
        (apply_punctuation_map cfg.punctuation_map
          (apply_hotwords cfg.hotwords x))) := by
      unfold process
      rw [if_neg hx]
    rw [hform, pyStrip_idem]

/-- Witness for C7's amended theorem at a concrete already-normalized
input. -/
theorem process_idempotent_on_normalized_witness :
    process reNone cfgDefault (process reNone cfgDefault ['h', 'i'])
      = process reNone cfgDefault ['h', 'i'] :=
  process_idempotent_on_normalized reNone cfgDefault ['h', 'i'] rfl
    (by decide) (by decide) (by decide) (by decide) (by decide) (by decide)

-- The U+0001 condition of the amended C7 is necessary under the compiled
-- (dead) collapse pattern: here the first pass removes the space after 。,
-- creating a 。-then-U+0001 adjacency that the second pass deletes, even
-- though the first pass's output has no punctuation run, no adjacent
-- space, and no map key in it.
example :
    process reNone cfgDefault
        (process reNone cfgDefault ['a', '。', ' ', '\x01', 'b'])
      ≠ process reNone cfgDefault ['a', '。', ' ', '\x01', 'b'] := by
  decide

/-!
## Empty input (claim C10)
-/

/-- C10.  On the empty input `process` returns the empty string at once —
the `if not text: return text` guard — and none of the pipeline steps is
applied, whatever the configuration and regex engine contain. -/
theorem process_empty_input_unchanged (re : ReEngine) (cfg : TPConfig) :
    process re cfg [] = [] :=
  rfl

end Miaoshu
